import Mathlib

/-!
Verification of the AI-Privacy-Guard frontend against its specification.

The definitions below are shallow embeddings of the TypeScript sources:
  - frontend/src/lib/utils.ts          (file validation)
  - frontend/src/lib/api.ts            (data model, processImages fetch wrapper)
  - frontend/src/components/PreviewPanel.tsx (composite rendering, toggling)
  - frontend/src/components/ReviewPanel.tsx  (review rendering, canvas clicks)
  - frontend/src/components/UploadZone.tsx   (selected-file list handling)
and, where the repository ships only the frontend, of the backend contract as
written in the specification (those definitions are marked
"Modelled from the spec").

Pixel coordinates are modelled as integers (ℤ), pixel colors as rational
RGB triples (so that alpha blending is exact), images as functions from
coordinates to pixels.
-/

namespace APG

/-- Pixel color: an RGB triple of rational channel values
(canvas colors, alpha already composited where relevant). -/
structure Pixel where
  r : ℚ
  g : ℚ
  b : ℚ
deriving DecidableEq, Repr

/-- A decoded raster image: pixel value at each coordinate. -/
def Image : Type := ℤ → ℤ → Pixel

/-- Detection class tag, `detection_type` in `api.ts`. -/
inductive DetType where
  | face
  | license_plate
deriving DecidableEq, Repr

/-- `BoundingBox` from `frontend/src/lib/api.ts`: one detection /
canonical region, with its toggleable `enabled` flag. -/
structure BoundingBox where
  id : String
  x : ℤ
  y : ℤ
  width : ℤ
  height : ℤ
  confidence : ℚ
  detection_type : DetType
  enabled : Bool
deriving DecidableEq, Repr

instance : Inhabited BoundingBox :=
  ⟨⟨"", 0, 0, 0, 0, 0, DetType.face, true⟩⟩

/-- Membership of a point in a detection rectangle, the pixel footprint of
`ctx.drawImage(src, x, y, w, h, x, y, w, h)` and `ctx.fillRect(x, y, w, h)`:
the half-open box `[x, x+width) × [y, y+height)`. -/
def memRect (d : BoundingBox) (px py : ℤ) : Prop :=
  d.x ≤ px ∧ px < d.x + d.width ∧ d.y ≤ py ∧ py < d.y + d.height

instance (d : BoundingBox) (px py : ℤ) : Decidable (memRect d px py) := by
  unfold memRect
  infer_instance

/-- `ProcessedImageResult` from `frontend/src/lib/api.ts`.  The two base64
images are modelled as decoded `Image`s (the decode step is outside the
frontend code under verification). -/
structure ProcessedImageResult where
  image_id : String
  original_filename : String
  original_image : Image
  processed_image : Image
  detections : List BoundingBox
  processing_time_ms : ℚ

/-! ## File validation (`frontend/src/lib/utils.ts`) -/

/-- A browser `File` as far as `utils.ts` reads it: name, MIME type, size. -/
structure FileInfo where
  name : String
  type : String
  size : ℕ
deriving DecidableEq, Repr

/-- `isValidImageType` from `utils.ts`: MIME type is one of
image/jpeg, image/png, image/webp. -/
def isValidImageType (file : FileInfo) : Bool :=
  let validTypes := ["image/jpeg", "image/png", "image/webp"]
  validTypes.contains file.type

/-- `isValidFileSize` from `utils.ts`: size at most `maxSizeMB` megabytes
(default 10). -/
def isValidFileSize (file : FileInfo) (maxSizeMB : ℕ) : Bool :=
  file.size ≤ maxSizeMB * 1024 * 1024

/-- Result record of `validateFiles`. -/
structure ValidateResult where
  valid : List FileInfo
  errors : List String
deriving DecidableEq, Repr

/-- `validateFiles` from `utils.ts`: each file is pushed to `valid`, or one
message is pushed to `errors` (bad type first, then bad size), in input
order. -/
def validateFiles : List FileInfo → ValidateResult
  | [] => ⟨[], []⟩
  | file :: rest =>
    let r := validateFiles rest
    if isValidImageType file = false then
      ⟨r.valid, (file.name ++ ": Invalid file type. Only JPG, PNG, WEBP allowed.") :: r.errors⟩
    else if isValidFileSize file 10 = false then
      ⟨r.valid, (file.name ++ ": File too large. Maximum 10MB allowed.") :: r.errors⟩
    else
      ⟨file :: r.valid, r.errors⟩

/-- The acceptance predicate as the specification words it: allowed MIME
type and size at most 10 MiB. -/
def specAccepts (f : FileInfo) : Prop :=
  (f.type = "image/jpeg" ∨ f.type = "image/png" ∨ f.type = "image/webp")
    ∧ f.size ≤ 10 * 1024 * 1024

instance (f : FileInfo) : Decidable (specAccepts f) := by
  unfold specAccepts
  infer_instance

/-- C8: `validateFiles` accepts exactly the spec-accepted files, emits one
error per rejected file, and accounts for every input file. -/
theorem validateFiles_partitions (files : List FileInfo) :
    (validateFiles files).valid = files.filter (fun f => decide (specAccepts f))
      ∧ (validateFiles files).errors.length
          = (files.filter (fun f => !(decide (specAccepts f)))).length
      ∧ (validateFiles files).valid.length + (validateFiles files).errors.length
          = files.length := by
  induction files with
  | nil => simp [validateFiles]
  | cons file rest ih =>
    obtain ⟨ih1, ih2, ih3⟩ := ih
    have hiff : (isValidImageType file && isValidFileSize file 10) = decide (specAccepts file) := by
      simp only [isValidImageType, isValidFileSize, specAccepts]
      by_cases h1 : file.type = "image/jpeg" <;>
        by_cases h2 : file.type = "image/png" <;>
          by_cases h3 : file.type = "image/webp" <;>
            by_cases h4 : file.size ≤ 10 * 1024 * 1024 <;>
              simp [h1, h2, h3, h4, List.contains_eq_any_beq, beq_iff_eq]
    by_cases hacc : specAccepts file
    · have hboth : (isValidImageType file && isValidFileSize file 10) = true := by
        rw [hiff]; simp [hacc]
      obtain ⟨h1, h2⟩ := Bool.and_eq_true_iff.mp hboth
      refine ⟨?_, ?_, ?_⟩
      · simp [validateFiles, h1, h2, ih1, hacc]
      · simp [validateFiles, h1, h2, ih2, hacc]
      · simp [validateFiles, h1, h2]
        omega
    · have hboth : (isValidImageType file && isValidFileSize file 10) = false := by
        rw [hiff]; simp [hacc]
      cases h1 : isValidImageType file with
      | false =>
        refine ⟨?_, ?_, ?_⟩
        · simp [validateFiles, h1, ih1, hacc]
        · simp [validateFiles, h1, ih2, hacc]
        · simp [validateFiles, h1]
          omega
      | true =>
        have h2 : isValidFileSize file 10 = false := by
          rw [h1] at hboth
          simpa using hboth
        refine ⟨?_, ?_, ?_⟩
        · simp [validateFiles, h1, h2, ih1, hacc]
        · simp [validateFiles, h1, h2, ih2, hacc]
        · simp [validateFiles, h1, h2]
          omega

/-! ## Composite rendering (`PreviewPanel.tsx`)

`renderCompositeDataUrl` (and identically `PreviewCanvas.drawCanvas` in its
non-`showOriginal` branch) draws the processed image onto a canvas, then for
each detection with `enabled = false` copies the original image's pixels over
that detection's rectangle. -/

/-- One `ctx.drawImage(src, x, y, w, h, x, y, w, h)` step: inside the
rectangle the canvas takes the source image's pixels, elsewhere it keeps its
previous content. -/
def overlayRect (canvas src : Image) (d : BoundingBox) : Image :=
  fun px py => if memRect d px py then src px py else canvas px py

/-- The `detections.forEach` loop of `renderCompositeDataUrl`: enabled
detections are skipped, disabled ones get the original pixels copied back. -/
def restoreDisabled (original : Image) (detections : List BoundingBox)
    (canvas : Image) : Image :=
  detections.foldl
    (fun acc det => if det.enabled then acc else overlayRect acc original det)
    canvas

/-- `renderCompositeDataUrl` (non-`showOriginal` path): processed image first,
then original pixels over every disabled detection's rectangle. -/
def renderComposite (original processed : Image) (detections : List BoundingBox) : Image :=
  restoreDisabled original detections processed

theorem restoreDisabled_not_covered (original : Image) (detections : List BoundingBox)
    (canvas : Image) (px py : ℤ)
    (h : ∀ d ∈ detections, d.enabled = false → ¬ memRect d px py) :
    restoreDisabled original detections canvas px py = canvas px py := by
  induction detections generalizing canvas with
  | nil => rfl
  | cons d rest ih =>
    have hrest : ∀ d' ∈ rest, d'.enabled = false → ¬ memRect d' px py :=
      fun d' hd' => h d' (List.mem_cons_of_mem _ hd')
    cases hd : d.enabled with
    | true =>
      simp only [restoreDisabled, List.foldl_cons, hd, if_pos rfl]
      exact ih canvas hrest
    | false =>
      have hnot : ¬ memRect d px py := h d (List.mem_cons_self _ _) hd
      simp only [restoreDisabled, List.foldl_cons, hd, Bool.false_eq_true, if_neg,
        not_false_eq_true]
      have := ih (overlayRect canvas original d) hrest
      rw [restoreDisabled] at this
      rw [this, overlayRect, if_neg hnot]

theorem restoreDisabled_covered (original : Image) (detections : List BoundingBox)
    (canvas : Image) (px py : ℤ)
    (h : ∃ d ∈ detections, d.enabled = false ∧ memRect d px py) :
    restoreDisabled original detections canvas px py = original px py := by
  induction detections generalizing canvas with
  | nil => exact absurd h (by simp)
  | cons d rest ih =>
    by_cases hrest : ∃ d' ∈ rest, d'.enabled = false ∧ memRect d' px py
    · cases hd : d.enabled with
      | true =>
        simp only [restoreDisabled, List.foldl_cons, hd, if_pos rfl]
        exact ih canvas hrest
      | false =>
        simp only [restoreDisabled, List.foldl_cons, hd, Bool.false_eq_true, if_neg,
          not_false_eq_true]
        exact ih (overlayRect canvas original d) hrest
    · obtain ⟨d', hd', hdis, hmem⟩ := h
      rcases List.mem_cons.mp hd' with rfl | hd'rest
      · have hnone : ∀ e ∈ rest, e.enabled = false → ¬ memRect e px py := by
          intro e he hedis
          by_contra hc
          exact hrest ⟨e, he, hedis, hc⟩
        simp only [restoreDisabled, List.foldl_cons, hdis, Bool.false_eq_true, if_neg,
          not_false_eq_true]
        have := restoreDisabled_not_covered original rest
          (overlayRect canvas original d') px py hnone
        rw [restoreDisabled] at this
        rw [this, overlayRect, if_pos hmem]
      · exact absurd ⟨d', hd'rest, hdis, hmem⟩ hrest

/-- Concrete all-one image used to instantiate C1. -/
def c1Orig : Image := fun _ _ => ⟨1, 1, 1⟩

/-- Concrete all-two image used to instantiate C1. -/
def c1Proc : Image := fun _ _ => ⟨2, 2, 2⟩

/-- Concrete enabled face detection on `[0,4) × [0,4)` used to instantiate C1. -/
def c1Enabled : BoundingBox := ⟨"a", 0, 0, 4, 4, 1, DetType.face, true⟩

/-- Concrete disabled plate detection on `[2,6) × [2,6)` used to instantiate C1. -/
def c1Disabled : BoundingBox := ⟨"b", 2, 2, 4, 4, 1, DetType.license_plate, false⟩

/-- C1 (counterexample): with an enabled detection on `[0,4)²` and a disabled
one on `[2,6)²`, the pixel `(3,3)` lies in the enabled detection's rectangle
yet the composite shows the original pixel there, not the processed one — so
an enabled detection does not always show the processed pixels. -/
theorem renderComposite_enabled_shows_original_cex :
    c1Enabled.enabled = true
      ∧ memRect c1Enabled 3 3
      ∧ renderComposite c1Orig c1Proc [c1Enabled, c1Disabled] 3 3 ≠ c1Proc 3 3 := by
  refine ⟨rfl, by decide, ?_⟩
  have h := restoreDisabled_covered c1Orig [c1Enabled, c1Disabled] c1Proc 3 3
    ⟨c1Disabled, by simp, rfl, by decide⟩
  rw [renderComposite, h]
  decide

/-- C1 (amended): in the composite output, every pixel inside some disabled
detection's rectangle equals the original image's pixel, and every pixel
inside no disabled detection's rectangle (in particular, pixels of enabled
detections not covered by a disabled one) equals the processed image's
pixel. -/
theorem renderComposite_pixels (original processed : Image)
    (detections : List BoundingBox) (px py : ℤ) :
    ((∃ d ∈ detections, d.enabled = false ∧ memRect d px py) →
        renderComposite original processed detections px py = original px py)
      ∧ ((∀ d ∈ detections, d.enabled = false → ¬ memRect d px py) →
        renderComposite original processed detections px py = processed px py) :=
  ⟨fun h => restoreDisabled_covered original detections processed px py h,
   fun h => restoreDisabled_not_covered original detections processed px py h⟩

/-- C1 (witness): the amended theorem applied at the concrete C1 scene, at a
covered pixel and at an uncovered pixel. -/
theorem renderComposite_pixels_witness :
    renderComposite c1Orig c1Proc [c1Enabled, c1Disabled] 5 5 = c1Orig 5 5
      ∧ renderComposite c1Orig c1Proc [c1Enabled, c1Disabled] 0 0 = c1Proc 0 0 :=
  ⟨(renderComposite_pixels c1Orig c1Proc [c1Enabled, c1Disabled] 5 5).1 (by decide),
   (renderComposite_pixels c1Orig c1Proc [c1Enabled, c1Disabled] 0 0).2 (by decide)⟩

/-- C6: original pixels are drawn over every disabled detection's rectangle
after the processed image, so at any pixel lying both in an enabled
detection's rectangle and in a disabled detection's rectangle the composite
shows the original image's pixel. -/
theorem renderComposite_overlap_shows_original (original processed : Image)
    (detections : List BoundingBox) (d e : BoundingBox) (px py : ℤ)
    (hd : d ∈ detections) (hdis : d.enabled = false)
    (he : e ∈ detections) (hen : e.enabled = true)
    (hmemd : memRect d px py) (hmeme : memRect e px py) :
    renderComposite original processed detections px py = original px py :=
  restoreDisabled_covered original detections processed px py ⟨d, hd, hdis, hmemd⟩

/-- Concrete all-three image used to instantiate C6. -/
def c6Orig : Image := fun _ _ => ⟨3, 3, 3⟩

/-- Concrete all-four image used to instantiate C6. -/
def c6Proc : Image := fun _ _ => ⟨4, 4, 4⟩

/-- Concrete enabled face detection used to instantiate C6. -/
def c6Enabled : BoundingBox := ⟨"f1", 0, 0, 10, 10, 1, DetType.face, true⟩

/-- Concrete disabled plate detection used to instantiate C6. -/
def c6Disabled : BoundingBox := ⟨"p1", 5, 5, 10, 10, 1, DetType.license_plate, false⟩

/-- C6 (witness): the theorem applied at a concrete overlapping scene and the
pixel `(7,7)` in the intersection. -/
theorem renderComposite_overlap_shows_original_witness :
    renderComposite c6Orig c6Proc [c6Enabled, c6Disabled] 7 7 = c6Orig 7 7 :=
  renderComposite_overlap_shows_original c6Orig c6Proc [c6Enabled, c6Disabled]
    c6Disabled c6Enabled 7 7 (by simp) rfl (by simp) rfl (by decide) (by decide)

/-! ## Toggling detections (`PreviewPanel.toggleDetection`,
`ReviewPanel.handleCanvasClick`) -/

/-- The spread `{ ...d, enabled: !d.enabled }`. -/
def toggleEnabled (d : BoundingBox) : BoundingBox :=
  { d with enabled := !d.enabled }

/-- `Array.prototype.map` with the element index, `(d, idx) => ...`,
starting the index at `k`. -/
def mapIdxFrom {α β : Type} (f : ℕ → α → β) (k : ℕ) : List α → List β
  | [] => []
  | a :: rest => f k a :: mapIdxFrom f (k + 1) rest

theorem mapIdxFrom_length {α β : Type} (f : ℕ → α → β) (k : ℕ) (l : List α) :
    (mapIdxFrom f k l).length = l.length := by
  induction l generalizing k with
  | nil => rfl
  | cons a rest ih => simp [mapIdxFrom, ih]

theorem mapIdxFrom_getElem? {α β : Type} (f : ℕ → α → β) (k : ℕ) (l : List α) (n : ℕ) :
    (mapIdxFrom f k l)[n]? = l[n]?.map (f (k + n)) := by
  induction l generalizing k n with
  | nil => simp [mapIdxFrom]
  | cons a rest ih =>
    cases n with
    | zero => simp [mapIdxFrom]
    | succ m =>
      have harith : k + 1 + m = k + (m + 1) := by omega
      simp [mapIdxFrom, ih (k + 1) m, harith]

/-- `toggleDetection` from `PreviewPanel.tsx`: map over results; in the
result whose `image_id` matches, map over detections toggling `enabled` on
the detection matched by id (when `detectionId` is truthy) or by index. -/
def toggleDetection (results : List ProcessedImageResult)
    (imageId detectionId : String) (detectionIndex : ℕ) : List ProcessedImageResult :=
  results.map fun r =>
    if r.image_id = imageId then
      { r with detections := mapIdxFrom (fun idx d =>
          if detectionId ≠ "" then
            (if d.id = detectionId then toggleEnabled d else d)
          else
            (if idx = detectionIndex then toggleEnabled d else d)) 0 r.detections }
    else r

/-- The hit test of `ReviewPanel.handleCanvasClick` (closed on all four
sides, as in the source's `<=` comparisons). -/
def containsClick (d : BoundingBox) (clickX clickY : ℤ) : Bool :=
  decide (d.x ≤ clickX ∧ clickX ≤ d.x + d.width
    ∧ d.y ≤ clickY ∧ clickY ≤ d.y + d.height)

/-- `handleCanvasClick` from `ReviewPanel.tsx`: find the first detection
containing the click; if one exists, replace it (in a copied array) by the
same detection with `enabled` negated. -/
def handleCanvasClick (detections : List BoundingBox) (clickX clickY : ℤ) :
    List BoundingBox :=
  match detections.findIdx? (fun d => containsClick d clickX clickY) with
  | none => detections
  | some i => detections.set i (toggleEnabled (detections.getD i default))

/-- All fields except `enabled` agree. -/
def sameButEnabled (d d' : BoundingBox) : Prop :=
  d'.id = d.id ∧ d'.x = d.x ∧ d'.y = d.y ∧ d'.width = d.width
    ∧ d'.height = d.height ∧ d'.confidence = d.confidence
    ∧ d'.detection_type = d.detection_type

/-- The detection of result `r` at position `j` that a
`toggleDetection results imageId detectionId detectionIndex` call targets. -/
def matchesTarget (imageId detectionId : String) (detectionIndex : ℕ)
    (r : ProcessedImageResult) (j : ℕ) (d : BoundingBox) : Prop :=
  r.image_id = imageId
    ∧ (if detectionId = "" then j = detectionIndex else d.id = detectionId)

instance (imageId detectionId : String) (detectionIndex : ℕ)
    (r : ProcessedImageResult) (j : ℕ) (d : BoundingBox) :
    Decidable (matchesTarget imageId detectionId detectionIndex r j d) := by
  unfold matchesTarget
  infer_instance

theorem lt_length_of_getElem?_eq_some {α : Type} {l : List α} {i : ℕ} {a : α}
    (h : l[i]? = some a) : i < l.length := by
  by_contra hc
  rw [List.getElem?_eq_none (by omega)] at h
  exact Option.noConfusion h

theorem nodup_map_getElem?_inj {α β : Type} {f : α → β} {l : List α}
    (h : (l.map f).Nodup) {i j : ℕ} {a b : α}
    (ha : l[i]? = some a) (hb : l[j]? = some b) (hf : f a = f b) : i = j := by
  have hia : (l.map f)[i]? = some (f a) := by rw [List.getElem?_map, ha]; rfl
  have hjb : (l.map f)[j]? = some (f b) := by rw [List.getElem?_map, hb]; rfl
  have hi : i < (l.map f).length := lt_length_of_getElem?_eq_some hia
  exact List.getElem?_inj hi h (by rw [hia, hjb, hf])

theorem toggleDetection_elem (results : List ProcessedImageResult)
    (imageId detectionId : String) (detectionIndex : ℕ) (i : ℕ)
    (r r' : ProcessedImageResult) (hr : results[i]? = some r)
    (hr' : (toggleDetection results imageId detectionId detectionIndex)[i]? = some r') :
    r'.image_id = r.image_id ∧ r'.original_filename = r.original_filename
      ∧ r'.original_image = r.original_image
      ∧ r'.processed_image = r.processed_image
      ∧ r'.processing_time_ms = r.processing_time_ms
      ∧ r'.detections.length = r.detections.length
      ∧ ∀ j d d', r.detections[j]? = some d → r'.detections[j]? = some d' →
          sameButEnabled d d'
          ∧ d'.enabled = (if matchesTarget imageId detectionId detectionIndex r j d
              then !d.enabled else d.enabled) := by
  unfold toggleDetection at hr'
  rw [List.getElem?_map, hr, Option.map_some'] at hr'
  by_cases him : r.image_id = imageId
  · rw [if_pos him] at hr'
    injection hr' with hr'
    subst hr'
    refine ⟨rfl, rfl, rfl, rfl, rfl, mapIdxFrom_length _ _ _, ?_⟩
    intro j d d' hd hd'
    simp only [mapIdxFrom_getElem?, Nat.zero_add, hd, Option.map_some'] at hd'
    injection hd' with hd'
    subst hd'
    by_cases hdid : detectionId = ""
    · by_cases hj : j = detectionIndex
      · simp [hdid, hj, sameButEnabled, toggleEnabled, matchesTarget, him]
      · simp [hdid, hj, sameButEnabled, matchesTarget]
    · by_cases hid : d.id = detectionId
      · simp [hdid, hid, sameButEnabled, toggleEnabled, matchesTarget, him]
      · simp [hdid, hid, sameButEnabled, matchesTarget]
  · rw [if_neg him] at hr'
    injection hr' with hr'
    subst hr'
    refine ⟨rfl, rfl, rfl, rfl, rfl, rfl, ?_⟩
    intro j d d' hd hd'
    rw [hd] at hd'
    injection hd' with hd'
    subst hd'
    simp [sameButEnabled, matchesTarget, him]

theorem toggleDetection_target_unique (results : List ProcessedImageResult)
    (imageId detectionId : String) (detectionIndex : ℕ)
    (hnodup : (results.map ProcessedImageResult.image_id).Nodup)
    (i i' j j' : ℕ) (r r' : ProcessedImageResult) (d d' : BoundingBox)
    (hr : results[i]? = some r) (hr' : results[i']? = some r')
    (hd : r.detections[j]? = some d) (hd' : r'.detections[j']? = some d')
    (hids : (r.detections.map BoundingBox.id).Nodup)
    (hm : matchesTarget imageId detectionId detectionIndex r j d)
    (hm' : matchesTarget imageId detectionId detectionIndex r' j' d') :
    i = i' ∧ j = j' := by
  have hi : i = i' :=
    nodup_map_getElem?_inj hnodup hr hr' (hm.1.trans hm'.1.symm)
  subst hi
  rw [hr] at hr'
  injection hr' with hr'
  subst hr'
  refine ⟨rfl, ?_⟩
  by_cases hdid : detectionId = ""
  · have h1 := hm.2
    have h2 := hm'.2
    rw [if_pos hdid] at h1 h2
    omega
  · have h1 := hm.2
    have h2 := hm'.2
    rw [if_neg hdid] at h1 h2
    exact nodup_map_getElem?_inj hids hd hd' (h1.trans h2.symm)

theorem handleCanvasClick_elem (detections : List BoundingBox) (clickX clickY : ℤ)
    (j : ℕ) (d d' : BoundingBox) (hd : detections[j]? = some d)
    (hd' : (handleCanvasClick detections clickX clickY)[j]? = some d') :
    sameButEnabled d d'
      ∧ d'.enabled
          = (if detections.findIdx? (fun b => containsClick b clickX clickY) = some j
            then !d.enabled else d.enabled) := by
  unfold handleCanvasClick at hd'
  cases hfind : detections.findIdx? (fun b => containsClick b clickX clickY) with
  | none =>
    rw [hfind] at hd'
    rw [hd] at hd'
    injection hd' with hd'
    subst hd'
    simp [sameButEnabled]
  | some i =>
    rw [hfind] at hd'
    by_cases hij : i = j
    · subst hij
      have hlen : i < detections.length := lt_length_of_getElem?_eq_some hd
      rw [List.getElem?_set_self hlen] at hd'
      injection hd' with hd'
      have hgd : detections.getD i default = d := by
        simp [List.getD_eq_getElem?_getD, hd]
      rw [hgd] at hd'
      subst hd'
      simp [sameButEnabled, toggleEnabled]
    · rw [List.getElem?_set_ne hij] at hd'
      rw [hd] at hd'
      injection hd' with hd'
      subst hd'
      have : ¬ (some i = some j) := fun hc => hij (Option.some.injEq i j ▸ hc)
      simp [sameButEnabled, this]

/-- C3: toggling a detection, by identifier or index
(`PreviewPanel.toggleDetection`) or by canvas click
(`ReviewPanel.handleCanvasClick`), preserves every field of every detection
except the `enabled` flag of the targeted detection, preserves all other
fields of every result, and — given unique image ids and unique detection
ids — targets at most one detection. -/
theorem toggling_changes_only_enabled
    (results : List ProcessedImageResult) (imageId detectionId : String)
    (detectionIndex : ℕ) (detections : List BoundingBox) (clickX clickY : ℤ) :
    ((toggleDetection results imageId detectionId detectionIndex).length = results.length
      ∧ (∀ (i : ℕ) (r r' : ProcessedImageResult), results[i]? = some r →
          (toggleDetection results imageId detectionId detectionIndex)[i]? = some r' →
          r'.image_id = r.image_id ∧ r'.original_filename = r.original_filename
            ∧ r'.original_image = r.original_image
            ∧ r'.processed_image = r.processed_image
            ∧ r'.processing_time_ms = r.processing_time_ms
            ∧ r'.detections.length = r.detections.length
            ∧ ∀ (j : ℕ) (d d' : BoundingBox), r.detections[j]? = some d →
                r'.detections[j]? = some d' →
                sameButEnabled d d'
                ∧ d'.enabled = (if matchesTarget imageId detectionId detectionIndex r j d
                    then !d.enabled else d.enabled))
      ∧ ((results.map ProcessedImageResult.image_id).Nodup →
          ∀ (i i' j j' : ℕ) (r r' : ProcessedImageResult) (d d' : BoundingBox),
            results[i]? = some r → results[i']? = some r' →
            r.detections[j]? = some d → r'.detections[j']? = some d' →
            (r.detections.map BoundingBox.id).Nodup →
            matchesTarget imageId detectionId detectionIndex r j d →
            matchesTarget imageId detectionId detectionIndex r' j' d' →
            i = i' ∧ j = j'))
    ∧ ((handleCanvasClick detections clickX clickY).length = detections.length
      ∧ ∀ (j : ℕ) (d d' : BoundingBox), detections[j]? = some d →
          (handleCanvasClick detections clickX clickY)[j]? = some d' →
          sameButEnabled d d'
          ∧ d'.enabled
              = (if detections.findIdx? (fun b => containsClick b clickX clickY) = some j
                then !d.enabled else d.enabled)) := by
  refine ⟨⟨?_, ?_, ?_⟩, ?_, ?_⟩
  · unfold toggleDetection
    exact List.length_map _ _
  · intro i r r' hr hr'
    exact toggleDetection_elem results imageId detectionId detectionIndex i r r' hr hr'
  · intro hnodup i i' j j' r r' d d' hr hr' hd hd' hids hm hm'
    exact toggleDetection_target_unique results imageId detectionId detectionIndex
      hnodup i i' j j' r r' d d' hr hr' hd hd' hids hm hm'
  · unfold handleCanvasClick
    cases detections.findIdx? (fun d => containsClick d clickX clickY) with
    | none => rfl
    | some i => exact List.length_set _ _ _
  · intro j d d' hd hd'
    exact handleCanvasClick_elem detections clickX clickY j d d' hd hd'

/-- Concrete face detection (enabled) used to instantiate C3. -/
def c3Det1 : BoundingBox := ⟨"d1", 0, 0, 10, 10, 1, DetType.face, true⟩

/-- Concrete plate detection (enabled) used to instantiate C3. -/
def c3Det2 : BoundingBox := ⟨"d2", 20, 20, 8, 8, 1, DetType.license_plate, true⟩

/-- Concrete black image used to instantiate C3. -/
def c3Img : Image := fun _ _ => ⟨0, 0, 0⟩

/-- Concrete processed result used to instantiate C3. -/
def c3R1 : ProcessedImageResult := ⟨"img1", "a.jpg", c3Img, c3Img, [c3Det1, c3Det2], 10⟩

/-- C3 (witness): the theorem applied to a concrete result list, toggling
detection "d2" by id, and to a concrete click at (1,1) hitting "d1". -/
theorem toggling_changes_only_enabled_witness :
    (sameButEnabled c3Det2 (toggleEnabled c3Det2)
        ∧ (toggleEnabled c3Det2).enabled = !c3Det2.enabled)
      ∧ (sameButEnabled c3Det1 (toggleEnabled c3Det1)
        ∧ (toggleEnabled c3Det1).enabled = !c3Det1.enabled) := by
  have h := toggling_changes_only_enabled [c3R1] "img1" "d2" 0 [c3Det1, c3Det2] 1 1
  have hA := (h.1.2.1 0 c3R1 { c3R1 with detections := [c3Det1, toggleEnabled c3Det2] }
    rfl rfl).2.2.2.2.2.2 1 c3Det2 (toggleEnabled c3Det2) rfl rfl
  have hB := h.2.2 0 c3Det1 (toggleEnabled c3Det1) rfl rfl
  refine ⟨⟨hA.1, ?_⟩, ⟨hB.1, ?_⟩⟩
  · rw [hA.2, if_pos]
    constructor
    · rfl
    · simp [c3Det2]
  · rw [hB.2, if_pos]
    rfl

/-! ## Review rendering (`ReviewPanel.drawCanvas`)

`drawCanvas` draws the original image, returns early when `showOriginal`,
then for each enabled detection either fills the rectangle with
`rgba(128, 128, 128, 0.8)` (gaussian / pixelation modes) or draws the emoji
glyph with `ctx.fillText` at font size `min(width, height)`, centered at the
rectangle's center (`textAlign = center`, `textBaseline = middle`).  The
edit-mode borders and labels are abstracted as an arbitrary overlay
function. -/

/-- `blurMode` prop of `ReviewPanel`. -/
inductive BlurMode where
  | gaussian
  | pixelation
  | emoji
deriving DecidableEq, Repr

/-- Abstract rasterization of `ctx.fillText` with `textAlign = center` and
`textBaseline = middle`: given the text, the font size in pixels, and the
offset of a sampled pixel from the anchor point, return the glyph's opaque
color there, or `none` where the glyph leaves the canvas unchanged. -/
def GlyphRaster : Type := String → ℤ → ℚ → ℚ → Option Pixel

/-- Source-over composite of the fill style `rgba(128, 128, 128, 0.8)`:
each channel becomes `0.8 * 128 + 0.2 * old`. -/
def blendGray (c : Pixel) : Pixel :=
  ⟨(4 * 128 + c.r) / 5, (4 * 128 + c.g) / 5, (4 * 128 + c.b) / 5⟩

/-- The glyph color `ctx.fillText(emoji, x + width / 2, y + height / 2)` with
font `min(width, height)` deposits at pixel `(px, py)`, if any. -/
def emojiCovers (glyph : GlyphRaster) (emoji : String) (d : BoundingBox)
    (px py : ℤ) : Option Pixel :=
  glyph emoji (min d.width d.height)
    ((px : ℚ) - ((d.x : ℚ) + (d.width : ℚ) / 2))
    ((py : ℚ) - ((d.y : ℚ) + (d.height : ℚ) / 2))

/-- One iteration of the `detections.forEach` loop of
`ReviewPanel.drawCanvas`: skip disabled detections, else gray-fill the
rectangle (gaussian / pixelation) or draw the emoji glyph. -/
def applyDetection (blurMode : BlurMode) (emoji : String) (glyph : GlyphRaster)
    (acc : Image) (detection : BoundingBox) : Image :=
  if detection.enabled = false then acc
  else
    match blurMode with
    | BlurMode.gaussian | BlurMode.pixelation =>
      fun px py =>
        if memRect detection px py then blendGray (acc px py) else acc px py
    | BlurMode.emoji =>
      fun px py =>
        match emojiCovers glyph emoji detection px py with
        | some c => c
        | none => acc px py

/-- `ReviewPanel.drawCanvas`.  `blurIntensity` is the prop of the enclosing
component; the drawing code never reads it.  The edit-mode borders and
labels are abstracted by `editOverlay`. -/
def reviewRender (img : Image) (detections : List BoundingBox)
    (blurMode : BlurMode) (blurIntensity : ℚ) (emoji : String)
    (glyph : GlyphRaster) (showOriginal editMode : Bool)
    (editOverlay : List BoundingBox → Image → Image) : Image :=
  if showOriginal then img
  else
    let blurred := detections.foldl (applyDetection blurMode emoji glyph) img
    if editMode then editOverlay detections blurred else blurred

/-- Whether the loop iteration for `d` changes the pixel `(px, py)`. -/
def affectsPixel (blurMode : BlurMode) (emoji : String) (glyph : GlyphRaster)
    (d : BoundingBox) (px py : ℤ) : Prop :=
  d.enabled = true
    ∧ (match blurMode with
      | BlurMode.gaussian | BlurMode.pixelation => memRect d px py
      | BlurMode.emoji => emojiCovers glyph emoji d px py ≠ none)

theorem applyDetection_unaffected (blurMode : BlurMode) (emoji : String)
    (glyph : GlyphRaster) (acc : Image) (d : BoundingBox) (px py : ℤ)
    (h : ¬ affectsPixel blurMode emoji glyph d px py) :
    applyDetection blurMode emoji glyph acc d px py = acc px py := by
  unfold affectsPixel at h
  cases hen : d.enabled with
  | false => simp [applyDetection, hen]
  | true =>
    rw [hen] at h
    cases blurMode with
    | gaussian =>
      have hmem : ¬ memRect d px py := fun hc => h ⟨rfl, hc⟩
      simp [applyDetection, hen, hmem]
    | pixelation =>
      have hmem : ¬ memRect d px py := fun hc => h ⟨rfl, hc⟩
      simp [applyDetection, hen, hmem]
    | emoji =>
      have hcov : emojiCovers glyph emoji d px py = none := by
        by_contra hc
        exact h ⟨rfl, hc⟩
      simp [applyDetection, hen, hcov]

theorem applyDetection_congr_at (blurMode : BlurMode) (emoji : String)
    (glyph : GlyphRaster) (acc acc' : Image) (d : BoundingBox) (px py : ℤ)
    (h : acc px py = acc' px py) :
    applyDetection blurMode emoji glyph acc d px py
      = applyDetection blurMode emoji glyph acc' d px py := by
  cases hen : d.enabled with
  | false => simp [applyDetection, hen, h]
  | true =>
    cases blurMode with
    | gaussian => simp [applyDetection, hen, h]
    | pixelation => simp [applyDetection, hen, h]
    | emoji =>
      cases hcov : emojiCovers glyph emoji d px py with
      | none => simp [applyDetection, hen, hcov, h]
      | some c => simp [applyDetection, hen, hcov]

theorem blurFold_untouched (blurMode : BlurMode) (emoji : String)
    (glyph : GlyphRaster) (detections : List BoundingBox) (base : Image)
    (px py : ℤ)
    (h : ∀ e ∈ detections, ¬ affectsPixel blurMode emoji glyph e px py) :
    detections.foldl (applyDetection blurMode emoji glyph) base px py
      = base px py := by
  induction detections generalizing base with
  | nil => rfl
  | cons a rest ih =>
    rw [List.foldl_cons]
    rw [ih (applyDetection blurMode emoji glyph base a)
      (fun e he => h e (List.mem_cons_of_mem _ he))]
    exact applyDetection_unaffected _ _ _ _ _ _ _ (h a (List.mem_cons_self _ _))

theorem blurFold_single (blurMode : BlurMode) (emoji : String)
    (glyph : GlyphRaster) (detections : List BoundingBox) (base : Image)
    (px py : ℤ) (d : BoundingBox) (hnodup : detections.Nodup)
    (hd : d ∈ detections)
    (hothers : ∀ e ∈ detections, e ≠ d → ¬ affectsPixel blurMode emoji glyph e px py) :
    detections.foldl (applyDetection blurMode emoji glyph) base px py
      = applyDetection blurMode emoji glyph base d px py := by
  induction detections generalizing base with
  | nil => exact absurd hd (List.not_mem_nil d)
  | cons a rest ih =>
    rcases List.mem_cons.mp hd with rfl | hdrest
    · have hdnotin : d ∉ rest := (List.nodup_cons.mp hnodup).1
      rw [List.foldl_cons]
      apply blurFold_untouched
      intro e he
      have hne : e ≠ d := fun hc => hdnotin (hc ▸ he)
      exact hothers e (List.mem_cons_of_mem _ he) hne
    · have hane : a ≠ d := by
        rintro rfl
        exact (List.nodup_cons.mp hnodup).1 hdrest
      have hbase : applyDetection blurMode emoji glyph base a px py = base px py :=
        applyDetection_unaffected _ _ _ _ _ _ _
          (hothers a (List.mem_cons_self _ _) hane)
      rw [List.foldl_cons]
      rw [ih (applyDetection blurMode emoji glyph base a)
        (List.nodup_cons.mp hnodup).2 hdrest
        (fun e he hne => hothers e (List.mem_cons_of_mem _ he) hne)]
      exact applyDetection_congr_at _ _ _ _ _ _ _ _ hbase

/-- Identity edit-mode overlay (edit mode off). -/
def idOverlay : List BoundingBox → Image → Image := fun _ i => i

/-- Concrete black image used to instantiate C2. -/
def c2Img : Image := fun _ _ => ⟨0, 0, 0⟩

/-- Concrete enabled face detection on `[0,10)²` used to instantiate C2. -/
def c2Det : BoundingBox := ⟨"g1", 0, 0, 10, 10, 1, DetType.face, true⟩

/-- Glyph raster that never deposits color (irrelevant outside emoji mode). -/
def c2Glyph : GlyphRaster := fun _ _ _ _ => none

/-- C2 (counterexample): in gaussian mode the render at intensity 0 equals
the render at intensity 100 pixel for pixel, and at intensity 0 the pixel
`(1,1)` inside the enabled region is already obscured (differs from the
original) — so intensity 0 does not give minimal/no visible blur while 100
gives heavy blur. -/
theorem gaussian_intensity_has_no_effect_cex :
    reviewRender c2Img [c2Det] BlurMode.gaussian 0 "X" c2Glyph false false idOverlay 1 1
        = reviewRender c2Img [c2Det] BlurMode.gaussian 100 "X" c2Glyph false false idOverlay 1 1
      ∧ reviewRender c2Img [c2Det] BlurMode.gaussian 0 "X" c2Glyph false false idOverlay 1 1
        ≠ c2Img 1 1 := by
  refine ⟨rfl, ?_⟩
  intro hc
  have h2 : blendGray (c2Img 1 1) = c2Img 1 1 := hc
  have hr := congrArg Pixel.r h2
  simp only [blendGray, c2Img] at hr
  norm_num at hr

/-- C2 (amended): the review render in gaussian/pixelation mode is entirely
independent of `blurIntensity` — any two intensities give identical pixels,
so the degree of obscuring is (trivially) non-decreasing in intensity — and
an enabled region's pixel touched by no other detection is the fixed
80 %-gray blend of the original pixel at every intensity; intensity 0 does
not give an unobscured region. -/
theorem reviewRender_intensity_invariant (img : Image)
    (detections : List BoundingBox) (blurMode : BlurMode) (i1 i2 : ℚ)
    (emoji : String) (glyph : GlyphRaster) (showOriginal editMode : Bool)
    (editOverlay : List BoundingBox → Image → Image) (px py : ℤ)
    (d : BoundingBox) :
    reviewRender img detections blurMode i1 emoji glyph showOriginal editMode editOverlay px py
      = reviewRender img detections blurMode i2 emoji glyph showOriginal editMode editOverlay px py
    ∧ ((blurMode = BlurMode.gaussian ∨ blurMode = BlurMode.pixelation) →
        showOriginal = false → editMode = false → detections.Nodup →
        d ∈ detections → d.enabled = true → memRect d px py →
        (∀ e ∈ detections, e ≠ d → ¬ affectsPixel blurMode emoji glyph e px py) →
        reviewRender img detections blurMode i1 emoji glyph showOriginal editMode editOverlay px py
          = blendGray (img px py)) := by
  constructor
  · rfl
  · rintro hmode rfl rfl hnodup hd hen hmem hothers
    have hfold := blurFold_single blurMode emoji glyph detections img px py d
      hnodup hd hothers
    rcases hmode with rfl | rfl
    · simp only [reviewRender, Bool.false_eq_true, if_false, hfold]
      simp [applyDetection, hen, hmem]
    · simp only [reviewRender, Bool.false_eq_true, if_false, hfold]
      simp [applyDetection, hen, hmem]

/-- C2 (witness): the amended theorem at the concrete scene — pixel `(1,1)`
of the enabled `[0,10)²` region renders as the fixed gray blend. -/
theorem reviewRender_intensity_invariant_witness :
    reviewRender c2Img [c2Det] BlurMode.gaussian 0 "X" c2Glyph false false idOverlay 1 1
      = blendGray (c2Img 1 1) :=
  (reviewRender_intensity_invariant c2Img [c2Det] BlurMode.gaussian 0 100 "X"
      c2Glyph false false idOverlay 1 1 c2Det).2
    (Or.inl rfl) rfl rfl (by simp) (by simp) rfl (by decide)
    (fun e he hne => absurd (List.mem_singleton.mp he) hne)

/-- C4: in emoji mode the render is independent of `blurIntensity`, and an
enabled detection's glyph is rasterized at font size
`min(width, height)` anchored at the rectangle's center
(`x + width / 2`, `y + height / 2`): where the raster deposits a color, the
output shows exactly that color. -/
theorem emoji_centered_scaled_intensity_free (img : Image)
    (detections : List BoundingBox) (i1 i2 : ℚ) (emoji : String)
    (glyph : GlyphRaster) (editOverlay : List BoundingBox → Image → Image)
    (px py : ℤ) (d : BoundingBox) (c : Pixel) :
    (∀ (showOriginal editMode : Bool),
      reviewRender img detections BlurMode.emoji i1 emoji glyph showOriginal editMode editOverlay px py
        = reviewRender img detections BlurMode.emoji i2 emoji glyph showOriginal editMode editOverlay px py)
    ∧ (detections.Nodup → d ∈ detections → d.enabled = true →
        emojiCovers glyph emoji d px py = some c →
        (∀ e ∈ detections, e ≠ d → ¬ affectsPixel BlurMode.emoji emoji glyph e px py) →
        reviewRender img detections BlurMode.emoji i1 emoji glyph false false editOverlay px py
          = c) := by
  constructor
  · intro showOriginal editMode
    rfl
  · intro hnodup hd hen hcov hothers
    have hfold := blurFold_single BlurMode.emoji emoji glyph detections img px py d
      hnodup hd hothers
    simp only [reviewRender, Bool.false_eq_true, if_false, hfold]
    simp [applyDetection, hen, hcov]

/-- Concrete white image used to instantiate C4. -/
def c4Img : Image := fun _ _ => ⟨255, 255, 255⟩

/-- Concrete enabled face detection used to instantiate C4. -/
def c4Det : BoundingBox := ⟨"e1", 0, 0, 10, 10, 1, DetType.face, true⟩

/-- Glyph raster depositing a fixed color everywhere, to instantiate C4. -/
def c4Glyph : GlyphRaster := fun _ _ _ _ => some ⟨9, 9, 9⟩

/-- C4 (witness): the theorem at a concrete scene — the glyph color shows at
pixel `(1,1)` for the enabled region, at intensity 0. -/
theorem emoji_centered_scaled_intensity_free_witness :
    reviewRender c4Img [c4Det] BlurMode.emoji 0 "E" c4Glyph false false idOverlay 1 1
      = ⟨9, 9, 9⟩ :=
  (emoji_centered_scaled_intensity_free c4Img [c4Det] 0 100 "E" c4Glyph
      idOverlay 1 1 c4Det ⟨9, 9, 9⟩).2
    (by simp) (by simp) rfl rfl
    (fun e he hne => absurd (List.mem_singleton.mp he) hne)

/-! ## Side effects of composite rendering (C5)

To talk about mutation, the canvas buffers live in an explicit heap of
image buffers.  `document.createElement("canvas")` allocates a fresh buffer
at the next free address; `ctx.drawImage` writes only to the canvas it was
obtained from.  `renderCompositeDataUrl` is re-modelled over this heap. -/

/-- The all-black (fresh canvas) image. -/
def blankImage : Image := fun _ _ => ⟨0, 0, 0⟩

instance : Inhabited Image := ⟨blankImage⟩

/-- A heap of image buffers, addressed by position. -/
structure BufferHeap where
  bufs : List Image

/-- Read the buffer at address `a` (blank if unallocated). -/
def BufferHeap.get (h : BufferHeap) (a : ℕ) : Image :=
  h.bufs.getD a blankImage

/-- Overwrite the buffer at address `a`. -/
def BufferHeap.set (h : BufferHeap) (a : ℕ) (img : Image) : BufferHeap :=
  ⟨h.bufs.set a img⟩

/-- `document.createElement("canvas")`: allocate a fresh blank buffer,
returning the new heap and the fresh address. -/
def BufferHeap.alloc (h : BufferHeap) : BufferHeap × ℕ :=
  (⟨h.bufs ++ [blankImage]⟩, h.bufs.length)

theorem BufferHeap.get_set_self (h : BufferHeap) (a : ℕ) (img : Image)
    (ha : a < h.bufs.length) : (h.set a img).get a = img := by
  simp [BufferHeap.get, BufferHeap.set, List.getD_eq_getElem?_getD,
    List.getElem?_set_self ha]

theorem BufferHeap.get_set_ne (h : BufferHeap) (a b : ℕ) (img : Image)
    (hab : a ≠ b) : (h.set a img).get b = h.get b := by
  simp [BufferHeap.get, BufferHeap.set, List.getD_eq_getElem?_getD,
    List.getElem?_set_ne hab]

theorem BufferHeap.length_set (h : BufferHeap) (a : ℕ) (img : Image) :
    (h.set a img).bufs.length = h.bufs.length := by
  simp [BufferHeap.set]

/-- One iteration of the restore loop over the heap: skip enabled
detections, else draw the original buffer's rectangle onto the canvas. -/
def restoreStep (origAddr canvas : ℕ) (hh : BufferHeap) (det : BoundingBox) :
    BufferHeap :=
  if det.enabled then hh
  else hh.set canvas (overlayRect (hh.get canvas) (hh.get origAddr) det)

/-- `renderCompositeDataUrl` over the buffer heap: allocate a fresh canvas,
draw the processed buffer onto it, then run the restore loop; return the
heap and the canvas address. -/
def renderCompositeHeap (h : BufferHeap) (origAddr procAddr : ℕ)
    (detections : List BoundingBox) : BufferHeap × ℕ :=
  let canvas := h.alloc.2
  let h1 := h.alloc.1
  let h2 := h1.set canvas (h1.get procAddr)
  (detections.foldl (restoreStep origAddr canvas) h2, canvas)

theorem restoreFold_length (origAddr canvas : ℕ) (detections : List BoundingBox)
    (hh : BufferHeap) :
    (detections.foldl (restoreStep origAddr canvas) hh).bufs.length
      = hh.bufs.length := by
  induction detections generalizing hh with
  | nil => rfl
  | cons d rest ih =>
    rw [List.foldl_cons, ih]
    unfold restoreStep
    cases d.enabled with
    | false => simp [BufferHeap.length_set]
    | true => simp

theorem restoreFold_get_ne (origAddr canvas : ℕ) (detections : List BoundingBox)
    (hh : BufferHeap) (a : ℕ) (ha : a ≠ canvas) :
    (detections.foldl (restoreStep origAddr canvas) hh).get a = hh.get a := by
  induction detections generalizing hh with
  | nil => rfl
  | cons d rest ih =>
    rw [List.foldl_cons, ih]
    unfold restoreStep
    cases d.enabled with
    | false => simp [BufferHeap.get_set_ne _ _ _ _ (fun hc => ha hc.symm)]
    | true => simp

theorem restoreFold_get_canvas (origAddr canvas : ℕ)
    (detections : List BoundingBox) (hh : BufferHeap)
    (hcl : canvas < hh.bufs.length) (hne : origAddr ≠ canvas) :
    (detections.foldl (restoreStep origAddr canvas) hh).get canvas
      = restoreDisabled (hh.get origAddr) detections (hh.get canvas) := by
  induction detections generalizing hh with
  | nil => rfl
  | cons d rest ih =>
    rw [List.foldl_cons]
    unfold restoreDisabled
    rw [List.foldl_cons]
    cases hd : d.enabled with
    | true =>
      have := ih hh hcl
      unfold restoreDisabled at this
      simp [restoreStep, hd, this]
    | false =>
      have hcl' : canvas < (restoreStep origAddr canvas hh d).bufs.length := by
        unfold restoreStep
        rw [hd]
        simpa [BufferHeap.length_set] using hcl
      have := ih (restoreStep origAddr canvas hh d) hcl'
      unfold restoreDisabled at this
      simp only [restoreStep, hd, Bool.false_eq_true, if_false] at this ⊢
      rw [this, BufferHeap.get_set_ne _ _ _ _ (fun hc => hne hc.symm),
        BufferHeap.get_set_self _ _ _ hcl]

theorem BufferHeap.get_alloc_lt (h : BufferHeap) (a : ℕ) (ha : a < h.bufs.length) :
    h.alloc.1.get a = h.get a := by
  simp [BufferHeap.alloc, BufferHeap.get, List.getD_eq_getElem?_getD,
    List.getElem?_append_left ha]

theorem renderCompositeHeap_preserves (h : BufferHeap) (origAddr procAddr : ℕ)
    (detections : List BoundingBox) (a : ℕ) (ha : a < h.bufs.length) :
    (renderCompositeHeap h origAddr procAddr detections).1.get a = h.get a := by
  unfold renderCompositeHeap
  have hane : a ≠ h.alloc.2 := by
    simp only [BufferHeap.alloc]
    omega
  rw [restoreFold_get_ne _ _ _ _ _ hane, BufferHeap.get_set_ne _ _ _ _
    (fun hc => hane hc.symm), BufferHeap.get_alloc_lt h a ha]

theorem renderCompositeHeap_length (h : BufferHeap) (origAddr procAddr : ℕ)
    (detections : List BoundingBox) :
    (renderCompositeHeap h origAddr procAddr detections).1.bufs.length
      = h.bufs.length + 1 := by
  unfold renderCompositeHeap
  rw [restoreFold_length]
  simp [BufferHeap.length_set, BufferHeap.alloc]

theorem renderCompositeHeap_output (h : BufferHeap) (origAddr procAddr : ℕ)
    (detections : List BoundingBox) (horig : origAddr < h.bufs.length)
    (hproc : procAddr < h.bufs.length) :
    (renderCompositeHeap h origAddr procAddr detections).1.get
        (renderCompositeHeap h origAddr procAddr detections).2
      = renderComposite (h.get origAddr) (h.get procAddr) detections := by
  unfold renderCompositeHeap
  have hlen1 : h.alloc.1.bufs.length = h.bufs.length + 1 := by
    simp [BufferHeap.alloc]
  have hcl : h.alloc.2 < (h.alloc.1.set h.alloc.2 (h.alloc.1.get procAddr)).bufs.length := by
    rw [BufferHeap.length_set, hlen1]
    simp [BufferHeap.alloc]
  have hne : origAddr ≠ h.alloc.2 := by
    simp only [BufferHeap.alloc]
    omega
  rw [restoreFold_get_canvas _ _ _ _ hcl hne]
  rw [BufferHeap.get_set_ne _ _ _ _ (fun hc => hne hc.symm)]
  rw [BufferHeap.get_set_self _ _ _ (by rw [hlen1]; simp [BufferHeap.alloc])]
  rw [BufferHeap.get_alloc_lt h origAddr horig, BufferHeap.get_alloc_lt h procAddr hproc]
  rfl

/-- One iteration of the `detections.forEach` loop of
`ReviewPanel.drawCanvas` over the heap: the component canvas is read and
rewritten in place. -/
def reviewStep (blurMode : BlurMode) (emoji : String) (glyph : GlyphRaster)
    (canvasAddr : ℕ) (hh : BufferHeap) (det : BoundingBox) : BufferHeap :=
  hh.set canvasAddr (applyDetection blurMode emoji glyph (hh.get canvasAddr) det)

/-- `ReviewPanel.drawCanvas` over the buffer heap: the component's
persistent canvas lives at `canvasAddr`, the decoded source image
(`imageRef`) at `imgAddr`.  `ctx.drawImage(img, 0, 0)` repaints the whole
canvas from the image (the canvas is sized to the image); then, unless
`showOriginal`, each enabled detection's treatment is drawn onto the same
canvas, and the edit-mode overlays on top of that. -/
def reviewDrawHeap (h : BufferHeap) (imgAddr canvasAddr : ℕ)
    (detections : List BoundingBox) (blurMode : BlurMode) (blurIntensity : ℚ)
    (emoji : String) (glyph : GlyphRaster) (showOriginal editMode : Bool)
    (editOverlay : List BoundingBox → Image → Image) : BufferHeap :=
  let h1 := h.set canvasAddr (h.get imgAddr)
  if showOriginal then h1
  else
    let h2 := detections.foldl (reviewStep blurMode emoji glyph canvasAddr) h1
    if editMode then h2.set canvasAddr (editOverlay detections (h2.get canvasAddr))
    else h2

theorem reviewFold_length (blurMode : BlurMode) (emoji : String)
    (glyph : GlyphRaster) (canvasAddr : ℕ) (detections : List BoundingBox)
    (hh : BufferHeap) :
    (detections.foldl (reviewStep blurMode emoji glyph canvasAddr) hh).bufs.length
      = hh.bufs.length := by
  induction detections generalizing hh with
  | nil => rfl
  | cons d rest ih =>
    rw [List.foldl_cons, ih]
    simp [reviewStep, BufferHeap.length_set]

theorem reviewFold_get_ne (blurMode : BlurMode) (emoji : String)
    (glyph : GlyphRaster) (canvasAddr : ℕ) (detections : List BoundingBox)
    (hh : BufferHeap) (a : ℕ) (ha : a ≠ canvasAddr) :
    (detections.foldl (reviewStep blurMode emoji glyph canvasAddr) hh).get a
      = hh.get a := by
  induction detections generalizing hh with
  | nil => rfl
  | cons d rest ih =>
    rw [List.foldl_cons, ih]
    exact BufferHeap.get_set_ne _ _ _ _ (fun hc => ha hc.symm)

theorem reviewFold_get_canvas (blurMode : BlurMode) (emoji : String)
    (glyph : GlyphRaster) (canvasAddr : ℕ) (detections : List BoundingBox)
    (hh : BufferHeap) (hcl : canvasAddr < hh.bufs.length) :
    (detections.foldl (reviewStep blurMode emoji glyph canvasAddr) hh).get canvasAddr
      = detections.foldl (applyDetection blurMode emoji glyph) (hh.get canvasAddr) := by
  induction detections generalizing hh with
  | nil => rfl
  | cons d rest ih =>
    rw [List.foldl_cons, List.foldl_cons]
    have hcl' : canvasAddr < (reviewStep blurMode emoji glyph canvasAddr hh d).bufs.length := by
      simpa [reviewStep, BufferHeap.length_set] using hcl
    rw [ih (reviewStep blurMode emoji glyph canvasAddr hh d) hcl']
    unfold reviewStep
    rw [BufferHeap.get_set_self _ _ _ hcl]

theorem reviewDrawHeap_preserves (h : BufferHeap) (imgAddr canvasAddr : ℕ)
    (detections : List BoundingBox) (blurMode : BlurMode) (blurIntensity : ℚ)
    (emoji : String) (glyph : GlyphRaster) (showOriginal editMode : Bool)
    (editOverlay : List BoundingBox → Image → Image) (a : ℕ)
    (ha : a ≠ canvasAddr) :
    (reviewDrawHeap h imgAddr canvasAddr detections blurMode blurIntensity
        emoji glyph showOriginal editMode editOverlay).get a = h.get a := by
  have hset : ∀ (hh : BufferHeap) (img : Image),
      (hh.set canvasAddr img).get a = hh.get a :=
    fun hh img => BufferHeap.get_set_ne _ _ _ _ (fun hc => ha hc.symm)
  unfold reviewDrawHeap
  cases showOriginal with
  | true => simpa using hset h (h.get imgAddr)
  | false =>
    cases editMode with
    | true =>
      simp only [Bool.false_eq_true, if_false, eq_self_iff_true, if_true]
      rw [hset, reviewFold_get_ne _ _ _ _ _ _ _ ha, hset]
    | false =>
      simp only [Bool.false_eq_true, if_false]
      rw [reviewFold_get_ne _ _ _ _ _ _ _ ha, hset]

theorem reviewDrawHeap_length (h : BufferHeap) (imgAddr canvasAddr : ℕ)
    (detections : List BoundingBox) (blurMode : BlurMode) (blurIntensity : ℚ)
    (emoji : String) (glyph : GlyphRaster) (showOriginal editMode : Bool)
    (editOverlay : List BoundingBox → Image → Image) :
    (reviewDrawHeap h imgAddr canvasAddr detections blurMode blurIntensity
        emoji glyph showOriginal editMode editOverlay).bufs.length
      = h.bufs.length := by
  unfold reviewDrawHeap
  cases showOriginal with
  | true => simp [BufferHeap.length_set]
  | false =>
    cases editMode with
    | true =>
      simp only [Bool.false_eq_true, if_false, eq_self_iff_true, if_true]
      rw [BufferHeap.length_set, reviewFold_length, BufferHeap.length_set]
    | false =>
      simp only [Bool.false_eq_true, if_false]
      rw [reviewFold_length, BufferHeap.length_set]

theorem reviewDrawHeap_canvas (h : BufferHeap) (imgAddr canvasAddr : ℕ)
    (detections : List BoundingBox) (blurMode : BlurMode) (blurIntensity : ℚ)
    (emoji : String) (glyph : GlyphRaster) (showOriginal editMode : Bool)
    (editOverlay : List BoundingBox → Image → Image)
    (hcanvas : canvasAddr < h.bufs.length) :
    (reviewDrawHeap h imgAddr canvasAddr detections blurMode blurIntensity
        emoji glyph showOriginal editMode editOverlay).get canvasAddr
      = reviewRender (h.get imgAddr) detections blurMode blurIntensity emoji
          glyph showOriginal editMode editOverlay := by
  have h1get : (h.set canvasAddr (h.get imgAddr)).get canvasAddr = h.get imgAddr :=
    BufferHeap.get_set_self _ _ _ hcanvas
  have h1len : canvasAddr < (h.set canvasAddr (h.get imgAddr)).bufs.length := by
    rwa [BufferHeap.length_set]
  unfold reviewDrawHeap reviewRender
  cases showOriginal with
  | true => simpa using h1get
  | false =>
    have hfold := reviewFold_get_canvas blurMode emoji glyph canvasAddr detections
      (h.set canvasAddr (h.get imgAddr)) h1len
    rw [h1get] at hfold
    cases editMode with
    | true =>
      simp only [Bool.false_eq_true, if_false, eq_self_iff_true, if_true]
      have hfoldlen : canvasAddr
          < (detections.foldl (reviewStep blurMode emoji glyph canvasAddr)
              (h.set canvasAddr (h.get imgAddr))).bufs.length := by
        rwa [reviewFold_length, BufferHeap.length_set]
      rw [BufferHeap.get_set_self _ _ _ hfoldlen, hfold]
    | false =>
      simp only [Bool.false_eq_true, if_false]
      exact hfold

/-- C5 (amended): both render paths, in every mode, leave the caller-owned
source images unchanged and are idempotent. `renderCompositeDataUrl` writes
only to a freshly created output buffer, which holds the pure composite of
the two inputs, and re-rendering from the post-state yields the same
output.  `ReviewPanel.drawCanvas` writes only to the component's own
persistent canvas — every other buffer, in particular the source image, is
unchanged — the canvas holds the pure mode-dependent render of the source
image, and repainting from the post-state leaves every buffer identical. -/
theorem redaction_side_effect_free (h : BufferHeap) (origAddr procAddr : ℕ)
    (detections : List BoundingBox) (hr : BufferHeap) (imgAddr canvasAddr : ℕ)
    (rdets : List BoundingBox) (blurMode : BlurMode) (blurIntensity : ℚ)
    (emoji : String) (glyph : GlyphRaster) (showOriginal editMode : Bool)
    (editOverlay : List BoundingBox → Image → Image)
    (horig : origAddr < h.bufs.length) (hproc : procAddr < h.bufs.length)
    (hcanvas : canvasAddr < hr.bufs.length) (hne : imgAddr ≠ canvasAddr) :
    (∀ a, a < h.bufs.length →
        (renderCompositeHeap h origAddr procAddr detections).1.get a = h.get a)
    ∧ h.bufs.length ≤ (renderCompositeHeap h origAddr procAddr detections).2
    ∧ (renderCompositeHeap h origAddr procAddr detections).1.get
          (renderCompositeHeap h origAddr procAddr detections).2
        = renderComposite (h.get origAddr) (h.get procAddr) detections
    ∧ (renderCompositeHeap (renderCompositeHeap h origAddr procAddr detections).1
          origAddr procAddr detections).1.get
          (renderCompositeHeap (renderCompositeHeap h origAddr procAddr detections).1
            origAddr procAddr detections).2
        = (renderCompositeHeap h origAddr procAddr detections).1.get
            (renderCompositeHeap h origAddr procAddr detections).2
    ∧ (∀ a, a ≠ canvasAddr →
        (reviewDrawHeap hr imgAddr canvasAddr rdets blurMode blurIntensity
            emoji glyph showOriginal editMode editOverlay).get a = hr.get a)
    ∧ (reviewDrawHeap hr imgAddr canvasAddr rdets blurMode blurIntensity
          emoji glyph showOriginal editMode editOverlay).get canvasAddr
        = reviewRender (hr.get imgAddr) rdets blurMode blurIntensity emoji
            glyph showOriginal editMode editOverlay
    ∧ (∀ a,
        (reviewDrawHeap (reviewDrawHeap hr imgAddr canvasAddr rdets blurMode
            blurIntensity emoji glyph showOriginal editMode editOverlay)
          imgAddr canvasAddr rdets blurMode blurIntensity emoji glyph
          showOriginal editMode editOverlay).get a
        = (reviewDrawHeap hr imgAddr canvasAddr rdets blurMode blurIntensity
            emoji glyph showOriginal editMode editOverlay).get a) := by
  refine ⟨?_, ?_, ?_, ?_, ?_, ?_, ?_⟩
  · intro a ha
    exact renderCompositeHeap_preserves h origAddr procAddr detections a ha
  · exact Nat.le_refl _
  · exact renderCompositeHeap_output h origAddr procAddr detections horig hproc
  · have h1 := renderCompositeHeap_output h origAddr procAddr detections horig hproc
    have hlen := renderCompositeHeap_length h origAddr procAddr detections
    have horig2 : origAddr < (renderCompositeHeap h origAddr procAddr detections).1.bufs.length := by
      rw [hlen]
      omega
    have hproc2 : procAddr < (renderCompositeHeap h origAddr procAddr detections).1.bufs.length := by
      rw [hlen]
      omega
    have h2 := renderCompositeHeap_output (renderCompositeHeap h origAddr procAddr detections).1
      origAddr procAddr detections horig2 hproc2
    rw [h2, h1,
      renderCompositeHeap_preserves h origAddr procAddr detections origAddr horig,
      renderCompositeHeap_preserves h origAddr procAddr detections procAddr hproc]
  · intro a ha
    exact reviewDrawHeap_preserves hr imgAddr canvasAddr rdets blurMode
      blurIntensity emoji glyph showOriginal editMode editOverlay a ha
  · exact reviewDrawHeap_canvas hr imgAddr canvasAddr rdets blurMode
      blurIntensity emoji glyph showOriginal editMode editOverlay hcanvas
  · intro a
    by_cases ha : a = canvasAddr
    · subst ha
      have hcanvas2 : a < (reviewDrawHeap hr imgAddr a rdets blurMode
          blurIntensity emoji glyph showOriginal editMode editOverlay).bufs.length := by
        rw [reviewDrawHeap_length]
        exact hcanvas
      rw [reviewDrawHeap_canvas _ _ _ _ _ _ _ _ _ _ _ hcanvas2,
        reviewDrawHeap_canvas _ _ _ _ _ _ _ _ _ _ _ hcanvas,
        reviewDrawHeap_preserves hr imgAddr a rdets blurMode blurIntensity
          emoji glyph showOriginal editMode editOverlay imgAddr hne]
    · rw [reviewDrawHeap_preserves _ _ _ _ _ _ _ _ _ _ _ a ha]

/-- Concrete original buffer used to instantiate C5. -/
def c5Orig : Image := fun _ _ => ⟨5, 5, 5⟩

/-- Concrete processed buffer used to instantiate C5. -/
def c5Proc : Image := fun _ _ => ⟨6, 6, 6⟩

/-- Concrete disabled detection used to instantiate C5. -/
def c5Det : BoundingBox := ⟨"r1", 0, 0, 3, 3, 1, DetType.face, false⟩

/-- Concrete two-buffer heap (original at 0, processed at 1) for C5. -/
def c5Heap : BufferHeap := ⟨[c5Orig, c5Proc]⟩

/-- Concrete source image of the review panel used to instantiate C5. -/
def c5bImg : Image := fun _ _ => ⟨7, 7, 7⟩

/-- Concrete review-panel heap for C5: the decoded image at address 0 and
the component's persistent (initially blank) canvas at address 1. -/
def c5bHeap : BufferHeap := ⟨[c5bImg, blankImage]⟩

/-- Glyph raster that never deposits color, used to instantiate C5. -/
def c5Glyph : GlyphRaster := fun _ _ _ _ => none

/-- C5 (counterexample): `ReviewPanel.drawCanvas` does not write to a
freshly created output buffer — address 1 exists before the render and its
content changes (the persistent component canvas is repainted in place), so
the "writes only to a freshly created output buffer" clause fails for this
render path. -/
theorem reviewDraw_repaints_persistent_canvas_cex :
    (1 : ℕ) < c5bHeap.bufs.length
      ∧ (reviewDrawHeap c5bHeap 0 1 [] BlurMode.gaussian 50 "X" c5Glyph
            false false idOverlay).get 1 0 0
          ≠ c5bHeap.get 1 0 0 := by
  refine ⟨by decide, ?_⟩
  decide

/-- C5 (witness): the theorem applied at concrete heaps — the fresh
composite buffer holds the pure composite, and the review canvas holds the
pure emoji-mode render of the source image. -/
theorem redaction_side_effect_free_witness :
    (renderCompositeHeap c5Heap 0 1 [c5Det]).1.get
        (renderCompositeHeap c5Heap 0 1 [c5Det]).2
      = renderComposite (c5Heap.get 0) (c5Heap.get 1) [c5Det]
      ∧ (reviewDrawHeap c5bHeap 0 1 [c5Det] BlurMode.emoji 50 "E" c5Glyph
            false false idOverlay).get 1
        = reviewRender (c5bHeap.get 0) [c5Det] BlurMode.emoji 50 "E" c5Glyph
            false false idOverlay := by
  have h := redaction_side_effect_free c5Heap 0 1 [c5Det] c5bHeap 0 1 [c5Det]
    BlurMode.emoji 50 "E" c5Glyph false false idOverlay
    (by decide) (by decide) (by decide) (by decide)
  exact ⟨h.2.2.1, h.2.2.2.2.2.1⟩

/-! ## The fetch wrapper `processImages` (`frontend/src/lib/api.ts`) -/

/-- `ProcessingResponse` from `api.ts`. -/
structure ProcessingResponse where
  success : Bool
  message : String
  results : List ProcessedImageResult
  total_processing_time_ms : ℚ
  images_processed : ℕ
  total_detections : ℕ

/-- A parsed JSON body, as the two ways `processImages` reads it: its
optional `detail` field (`none` = absent / undefined) and its reading as a
`ProcessingResponse`. -/
structure ResponseJson where
  detail : Option String
  asResponse : ProcessingResponse

/-- The `fetch` response as `processImages` consumes it: the `ok` flag, the
numeric status, and the JSON body (`none` when `response.json()` rejects). -/
structure FetchResponse where
  ok : Bool
  status : ℕ
  json : Option ResponseJson

/-- How a `processImages` call can fail: a thrown `Error(message)`, or the
rejected `response.json()` promise on the ok path. -/
inductive FetchFailure where
  | thrown (message : String)
  | jsonSyntaxError
deriving DecidableEq, Repr

/-- `processImages` from `api.ts` (response handling): on a non-ok response,
parse the body with a `.catch` producing `{detail: "Unknown error"}` and
throw `error.detail || "HTTP error <status>"` (JS `||` treats an absent or
empty `detail` as falsy); on an ok response return the parsed body. -/
def processImages (resp : FetchResponse) : Except FetchFailure ProcessingResponse :=
  if resp.ok = false then
    let error : Option String :=
      match resp.json with
      | some j => j.detail
      | none => some "Unknown error"
    Except.error (FetchFailure.thrown
      (match error with
      | some d => if d = "" then "HTTP error " ++ toString resp.status else d
      | none => "HTTP error " ++ toString resp.status))
  else
    match resp.json with
    | some j => Except.ok j.asResponse
    | none => Except.error FetchFailure.jsonSyntaxError

/-- C9 (counterexample): on a non-ok response whose body cannot be parsed as
JSON, `processImages` throws "Unknown error", not "HTTP error 500" — the
claimed fallback for an unparseable detail is wrong. -/
theorem processImages_unparseable_fallback_cex :
    processImages ⟨false, 500, none⟩
        = Except.error (FetchFailure.thrown "Unknown error")
      ∧ "Unknown error" ≠ "HTTP error " ++ toString (500 : ℕ) :=
  ⟨rfl, by decide⟩

/-- C9 (amended): `processImages` returns the parsed body exactly on an ok
response; on a non-ok response it never returns a result and throws the
server's non-empty `detail` when the body parses to one, "HTTP error
<status>" when the parsed body has no (or an empty) `detail`, and "Unknown
error" when the body is not parseable JSON. -/
theorem processImages_spec (resp : FetchResponse) :
    (resp.ok = true → ∀ j, resp.json = some j →
        processImages resp = Except.ok j.asResponse)
    ∧ (resp.ok = false →
        (∀ r, processImages resp ≠ Except.ok r)
        ∧ (resp.json = none →
            processImages resp = Except.error (FetchFailure.thrown "Unknown error"))
        ∧ (∀ j d, resp.json = some j → j.detail = some d → d ≠ "" →
            processImages resp = Except.error (FetchFailure.thrown d))
        ∧ (∀ j, resp.json = some j → (j.detail = none ∨ j.detail = some "") →
            processImages resp = Except.error
              (FetchFailure.thrown ("HTTP error " ++ toString resp.status)))) := by
  constructor
  · intro hok j hj
    simp [processImages, hok, hj]
  · intro hok
    refine ⟨?_, ?_, ?_, ?_⟩
    · intro r
      simp [processImages, hok]
    · intro hj
      simp [processImages, hok, hj]
    · intro j d hj hd hne
      simp [processImages, hok, hj, hd, hne]
    · intro j hj hd
      rcases hd with hd | hd <;> simp [processImages, hok, hj, hd]

/-- Concrete parsed body used to instantiate C9. -/
def c9Resp : ProcessingResponse := ⟨true, "ok", [], 0, 0, 0⟩

/-- Concrete JSON body with `detail = "Not found"` used to instantiate C9. -/
def c9Json : ResponseJson := ⟨some "Not found", c9Resp⟩

/-- C9 (witness): the amended theorem at a 404 carrying a detail and at a
200 carrying a body. -/
theorem processImages_spec_witness :
    processImages ⟨false, 404, some c9Json⟩
        = Except.error (FetchFailure.thrown "Not found")
      ∧ processImages ⟨true, 200, some c9Json⟩ = Except.ok c9Resp :=
  ⟨((processImages_spec ⟨false, 404, some c9Json⟩).2 rfl).2.2.1 c9Json
      "Not found" rfl rfl (by decide),
   (processImages_spec ⟨true, 200, some c9Json⟩).1 rfl c9Json rfl⟩

/-! ## Selected-file list (`UploadZone.handleFiles`) -/

/-- `handleFiles` from `UploadZone.tsx`: validate the incoming batch; when
any file is valid, the new selected list is
`[...files, ...valid].slice(0, maxFiles)`; otherwise the list is
unchanged. -/
def handleFiles (files : List FileInfo) (maxFiles : ℕ) (newFiles : List FileInfo) :
    List FileInfo :=
  let valid := (validateFiles newFiles).valid
  if 0 < valid.length then (files ++ valid).take maxFiles else files

/-- C10: starting from a selected list within the limit, `handleFiles` keeps
the existing files first, appends the newly validated files truncated to the
remaining room, and never exceeds `maxFiles`. -/
theorem uploadZone_respects_maxFiles (files newFiles : List FileInfo)
    (maxFiles : ℕ) (h : files.length ≤ maxFiles) :
    handleFiles files maxFiles newFiles
        = files ++ (validateFiles newFiles).valid.take (maxFiles - files.length)
      ∧ (handleFiles files maxFiles newFiles).length ≤ maxFiles := by
  have h1 : handleFiles files maxFiles newFiles
      = files ++ (validateFiles newFiles).valid.take (maxFiles - files.length) := by
    unfold handleFiles
    by_cases hv : 0 < (validateFiles newFiles).valid.length
    · rw [if_pos hv, List.take_append_eq_append_take, List.take_of_length_le h]
    · rw [if_neg hv]
      have hnil : (validateFiles newFiles).valid = [] :=
        List.length_eq_zero.mp (by omega)
      simp [hnil]
  refine ⟨h1, ?_⟩
  rw [h1]
  simp only [List.length_append, List.length_take]
  omega

/-- Concrete valid PNG file used to instantiate C10. -/
def c10A : FileInfo := ⟨"a.png", "image/png", 100⟩

/-- Concrete valid JPEG file used to instantiate C10. -/
def c10B : FileInfo := ⟨"b.jpg", "image/jpeg", 200⟩

/-- Concrete valid WEBP file used to instantiate C10. -/
def c10C : FileInfo := ⟨"c.webp", "image/webp", 300⟩

/-- C10 (witness): the theorem applied with one selected file, limit 2, and
two incoming valid files — the second incoming file is truncated away. -/
theorem uploadZone_respects_maxFiles_witness :
    handleFiles [c10A] 2 [c10B, c10C]
        = [c10A] ++ (validateFiles [c10B, c10C]).valid.take
            (2 - ([c10A] : List FileInfo).length)
      ∧ (handleFiles [c10A] 2 [c10B, c10C]).length ≤ 2 :=
  uploadZone_respects_maxFiles [c10A] [c10B, c10C] 2 (by decide)

/-! ## Region Reconciler (spec-modelled)

The backend pipeline (Geometry Utilities, Detector Adapters, Region
Reconciler, §§4.1–4.3 of the specification) is not part of the repository
snapshot under verification — only the frontend is.  The definitions below
are therefore modelled from the specification's own words and C7 is settled
against them. -/

/-- A rectangle in image pixel coordinates. -/
structure Rect where
  x : ℤ
  y : ℤ
  width : ℤ
  height : ℤ
deriving DecidableEq, Repr

/-- Modelled from the spec: `clip(rect, imageWidth, imageHeight)` of the
missing Geometry Utilities (§4.1) "truncates a rectangle to the image
bounds; returns a zero-area rectangle if the input lies entirely
outside". -/
def clip (r : Rect) (imageWidth imageHeight : ℤ) : Rect :=
  let x1 := max r.x 0
  let y1 := max r.y 0
  let x2 := min (r.x + r.width) imageWidth
  let y2 := min (r.y + r.height) imageHeight
  ⟨x1, y1, max (x2 - x1) 0, max (y2 - y1) 0⟩

/-- Modelled from the spec: `iou(a, b)` of the missing Geometry Utilities
(§4.1), standard intersection-over-union, 0 for zero-area rectangles. -/
def iou (a b : Rect) : ℚ :=
  let ix := max 0 (min (a.x + a.width) (b.x + b.width) - max a.x b.x)
  let iy := max 0 (min (a.y + a.height) (b.y + b.height) - max a.y b.y)
  let inter : ℚ := ((ix * iy : ℤ) : ℚ)
  let union : ℚ := ((a.width * a.height + b.width * b.height : ℤ) : ℚ) - inter
  if union = 0 then 0 else inter / union

/-- `RawRegion` (§3): detector-local rectangle, confidence, type tag. -/
structure RawRegion where
  rect : Rect
  confidence : ℚ
  type : DetType
deriving DecidableEq, Repr

/-- `Region` (§3): the canonical unit of redaction. -/
structure Region where
  id : String
  rect : Rect
  confidence : ℚ
  type : DetType
  enabled : Bool
deriving DecidableEq, Repr

/-- Modelled from the spec: §4.3 step 2 of the missing Region Reconciler —
greedy same-type duplicate suppression: keep a region only if its IoU with
every already-kept region of the same type is below the threshold. -/
def nmsKeep (threshold : ℚ) (kept : List RawRegion) :
    List RawRegion → List RawRegion
  | [] => kept.reverse
  | r :: rest =>
    if kept.all (fun k => decide (k.type = r.type → iou k.rect r.rect < threshold)) then
      nmsKeep threshold (r :: kept) rest
    else
      nmsKeep threshold kept rest

/-- Modelled from the spec: §4.3 step 3 of the missing Region Reconciler —
assign each surviving region a stable identifier, enable all. -/
def assignIds (k : ℕ) : List RawRegion → List Region
  | [] => []
  | r :: rest =>
    ⟨"region_" ++ toString k, r.rect, r.confidence, r.type, true⟩
      :: assignIds (k + 1) rest

/-- Modelled from the spec: the missing Region Reconciler (§4.3) — clip
every raw region to image bounds, drop zero-area regions, sort by
descending confidence, suppress same-type duplicates at threshold 0.5,
assign identifiers, and enable all. -/
def reconcile (raws : List RawRegion) (imageWidth imageHeight : ℤ) :
    List Region :=
  let clipped := raws.map (fun r => { r with rect := clip r.rect imageWidth imageHeight })
  let positive := clipped.filter (fun r => decide (0 < r.rect.width ∧ 0 < r.rect.height))
  let ordered := positive.mergeSort (fun a b => decide (b.confidence ≤ a.confidence))
  assignIds 0 (nmsKeep (1 / 2) [] ordered)

theorem mem_assignIds {reg : Region} {k : ℕ} {l : List RawRegion}
    (h : reg ∈ assignIds k l) : ∃ r ∈ l, reg.rect = r.rect := by
  induction l generalizing k with
  | nil => exact absurd h (List.not_mem_nil reg)
  | cons r rest ih =>
    rw [assignIds] at h
    rcases List.mem_cons.mp h with rfl | hrest
    · exact ⟨r, List.mem_cons_self r rest, rfl⟩
    · obtain ⟨r', hr', heq⟩ := ih hrest
      exact ⟨r', List.mem_cons_of_mem _ hr', heq⟩

theorem mem_nmsKeep {threshold : ℚ} {r : RawRegion} {kept l : List RawRegion}
    (h : r ∈ nmsKeep threshold kept l) : r ∈ kept ∨ r ∈ l := by
  induction l generalizing kept with
  | nil =>
    rw [nmsKeep] at h
    exact Or.inl (List.mem_reverse.mp h)
  | cons a rest ih =>
    rw [nmsKeep] at h
    by_cases hc : kept.all
        (fun k => decide (k.type = a.type → iou k.rect a.rect < threshold)) = true
    · rw [if_pos hc] at h
      rcases ih h with hk | hr
      · rcases List.mem_cons.mp hk with rfl | hk'
        · exact Or.inr (List.mem_cons_self _ _)
        · exact Or.inl hk'
      · exact Or.inr (List.mem_cons_of_mem _ hr)
    · rw [if_neg hc] at h
      rcases ih h with hk | hr
      · exact Or.inl hk
      · exact Or.inr (List.mem_cons_of_mem _ hr)

theorem clip_in_bounds (r : Rect) (imageWidth imageHeight : ℤ)
    (hw : 0 < (clip r imageWidth imageHeight).width)
    (hh : 0 < (clip r imageWidth imageHeight).height) :
    0 ≤ (clip r imageWidth imageHeight).x
      ∧ 0 ≤ (clip r imageWidth imageHeight).y
      ∧ (clip r imageWidth imageHeight).x + (clip r imageWidth imageHeight).width
          ≤ imageWidth
      ∧ (clip r imageWidth imageHeight).y + (clip r imageWidth imageHeight).height
          ≤ imageHeight := by
  unfold clip at *
  simp only at *
  omega

/-- C7: every region produced by the (spec-modelled) reconciler lies within
the image bounds and has positive width and height. -/
theorem reconcile_clipping_invariant (raws : List RawRegion)
    (imageWidth imageHeight : ℤ) (reg : Region)
    (hreg : reg ∈ reconcile raws imageWidth imageHeight) :
    0 ≤ reg.rect.x ∧ 0 ≤ reg.rect.y
      ∧ reg.rect.x + reg.rect.width ≤ imageWidth
      ∧ reg.rect.y + reg.rect.height ≤ imageHeight
      ∧ 0 < reg.rect.width ∧ 0 < reg.rect.height := by
  unfold reconcile at hreg
  obtain ⟨r, hr, hrect⟩ := mem_assignIds hreg
  have hr2 : r ∈ (raws.map (fun r0 => { r0 with
      rect := clip r0.rect imageWidth imageHeight })).filter
        (fun r0 => decide (0 < r0.rect.width ∧ 0 < r0.rect.height)) := by
    rcases mem_nmsKeep hr with hk | hl
    · exact absurd hk (List.not_mem_nil r)
    · exact ((List.mergeSort_perm _ _).mem_iff).mp hl
  obtain ⟨hmem, hpos⟩ := List.mem_filter.mp hr2
  obtain ⟨r0, _, hr0⟩ := List.mem_map.mp hmem
  have hpos' : 0 < r.rect.width ∧ 0 < r.rect.height := by
    simpa using hpos
  rw [← hr0] at hpos'
  simp only at hpos'
  have hbounds := clip_in_bounds r0.rect imageWidth imageHeight hpos'.1 hpos'.2
  rw [hrect, ← hr0]
  simp only
  exact ⟨hbounds.1, hbounds.2.1, hbounds.2.2.1, hbounds.2.2.2, hpos'.1, hpos'.2⟩

instance : Inhabited Region :=
  ⟨⟨"", ⟨0, 0, 0, 0⟩, 0, DetType.face, true⟩⟩

/-- Concrete raw region sticking out of a 640×480 image, to instantiate C7. -/
def c7Raw1 : RawRegion := ⟨⟨600, -20, 100, 100⟩, 1, DetType.face⟩

/-- C7 (witness): the invariant holds for the head region reconciled from a
concrete raw detection sticking out of a 640×480 image. -/
theorem reconcile_clipping_invariant_witness :
    0 ≤ (reconcile [c7Raw1] 640 480).headI.rect.x
      ∧ 0 ≤ (reconcile [c7Raw1] 640 480).headI.rect.y
      ∧ (reconcile [c7Raw1] 640 480).headI.rect.x
            + (reconcile [c7Raw1] 640 480).headI.rect.width ≤ 640
      ∧ (reconcile [c7Raw1] 640 480).headI.rect.y
            + (reconcile [c7Raw1] 640 480).headI.rect.height ≤ 480
      ∧ 0 < (reconcile [c7Raw1] 640 480).headI.rect.width
      ∧ 0 < (reconcile [c7Raw1] 640 480).headI.rect.height :=
  reconcile_clipping_invariant [c7Raw1] 640 480
    (reconcile [c7Raw1] 640 480).headI
    (by simp +decide [reconcile, clip, c7Raw1, List.mergeSort_singleton,
      nmsKeep, assignIds])

end APG
